import Mathlib

/-!
Shallow embedding of `src/lib/recurringTransactions.ts` (the recurrence
expansion and reconciliation engine of the `financeiro` repository), together
with theorems settling the frozen claims about it.

Dates are modelled as calendar records `(year, month, day, tod)` mirroring the
fields of a JavaScript `Date` in local time: `month` is zero-based as returned
by `getMonth()`, `day` is the day-of-month as returned by `getDate()`, and
`tod` is the time of day in milliseconds since local midnight.  JavaScript
`Date` comparison (epoch milliseconds) is modelled as lexicographic comparison
of these fields, which agrees with it on all well-formed dates.  The
`new Date(y, m, d)` constructor normalizes out-of-range months and days
(roll-over, not clamping); `mkDate` below implements that normalization for
the argument ranges that occur in this code (months shifted by at most one
from a normalized month, day between 0 and 31).
-/

structure JDate where
  year : Int
  month : Nat
  day : Nat
  tod : Nat
deriving DecidableEq, Repr

/-- The linear month number `year * 12 + month` of a date; two well-formed
dates are in the same calendar month iff their `monthIndex` agree. -/
def monthIndex (d : JDate) : Int := d.year * 12 + d.month

/-- Chronological order on dates (the model of JavaScript `a <= b` on `Date`
values, i.e. comparison of epoch milliseconds). -/
def JDate.le (a b : JDate) : Prop :=
  monthIndex a < monthIndex b ∨
    (monthIndex a = monthIndex b ∧
      (a.day < b.day ∨ (a.day = b.day ∧ a.tod ≤ b.tod)))

instance JDate.decLe (a b : JDate) : Decidable (JDate.le a b) := by
  unfold JDate.le; exact inferInstance

/-- Boolean form of `JDate.le`, used where the source compares dates inside
query filters and loop conditions. -/
def JDate.ble (a b : JDate) : Bool := decide (JDate.le a b)

/-- Boolean strict order: `a < b` iff not `b <= a` (total order). -/
def JDate.blt (a b : JDate) : Bool := !(JDate.ble b a)

theorem JDate.ble_iff (a b : JDate) : JDate.ble a b = true ↔ JDate.le a b :=
  decide_eq_true_iff

theorem JDate.ble_eq_false (a b : JDate) :
    JDate.ble a b = false ↔ ¬ JDate.le a b := by
  rw [← JDate.ble_iff]; cases JDate.ble a b <;> simp

/-- Proleptic-Gregorian leap-year rule, as implemented by JavaScript `Date`. -/
def isLeap (y : Int) : Bool := (y % 4 == 0 && !(y % 100 == 0)) || y % 400 == 0

/-- Number of days of zero-based month `m` of year `y` (for `m < 12`). -/
def daysInMonth (y : Int) (m : Nat) : Nat :=
  if m = 1 then (if isLeap y then 29 else 28)
  else if m = 3 ∨ m = 5 ∨ m = 8 ∨ m = 10 then 30
  else 31

theorem daysInMonth_ge (y : Int) (m : Nat) : 28 ≤ daysInMonth y m := by
  unfold daysInMonth; split_ifs <;> omega

theorem daysInMonth_le (y : Int) (m : Nat) : daysInMonth y m ≤ 31 := by
  unfold daysInMonth; split_ifs <;> omega

/-- Normalize a `(year, month)` pair with the month possibly one step outside
`[0, 12)`, as JavaScript `Date` does when a month index over- or underflows.
Faithful to full JS normalization for `-12 ≤ m`. -/
def normYM (y m : Int) : Int × Nat :=
  if m < 0 then (y - 1, (m + 12).toNat)
  else if m < 12 then (y, m.toNat)
  else (y + 1, (m - 12).toNat)

theorem normYM_index (y m : Int) (h : -12 ≤ m) :
    (normYM y m).1 * 12 + ((normYM y m).2 : Int) = y * 12 + m := by
  unfold normYM; split_ifs <;> simp <;> omega

theorem normYM_month_lt (y m : Int) (h1 : -12 ≤ m) (h2 : m < 24) :
    (normYM y m).2 < 12 := by
  unfold normYM; split_ifs <;> simp <;> omega

/-- The JavaScript `new Date(y, m, d)` constructor at local midnight: month
normalization followed by day-of-month resolution, where a day below 1
borrows from the previous month and a day beyond the month's length rolls
over into the following month (never clamping).  Implements the JS behaviour
exactly for `0 ≤ d ≤ 59`, covering every call site in the embedded code
(`d` is a stored day-of-month in `[1, 31]`, a `getDate()` value, `1`, or `0`). -/
def mkDate (y m d : Int) : JDate :=
  let ym := normYM y m
  let dim : Nat := daysInMonth ym.1 ym.2
  if d < 1 then
    let ym2 := normYM ym.1 ((ym.2 : Int) - 1)
    ⟨ym2.1, ym2.2, ((daysInMonth ym2.1 ym2.2 : Int) + d).toNat, 0⟩
  else if d ≤ (dim : Int) then
    ⟨ym.1, ym.2, d.toNat, 0⟩
  else
    let ym2 := normYM ym.1 ((ym.2 : Int) + 1)
    ⟨ym2.1, ym2.2, (d - dim).toNat, 0⟩

theorem mkDate_tod (y m d : Int) : (mkDate y m d).tod = 0 := by
  simp only [mkDate]; split_ifs <;> rfl

/-- `date.setMonth(m)`: re-normalize with the new month, keeping the nominal
day and the time of day. -/
def jsSetMonth (dt : JDate) (m : Int) : JDate :=
  let r := mkDate dt.year m dt.day
  ⟨r.year, r.month, r.day, dt.tod⟩

/-- `date.setFullYear(y)`: re-normalize with the new year, keeping the nominal
month, day and time of day. -/
def jsSetFullYear (dt : JDate) (y : Int) : JDate :=
  let r := mkDate y dt.month dt.day
  ⟨r.year, r.month, r.day, dt.tod⟩

/-- `date.setHours(0, 0, 0, 0)`: strip the time of day. -/
def jsSetHoursZero (dt : JDate) : JDate := { dt with tod := 0 }

/-- One iteration of the generator's cursor advance:
`current.setMonth(current.getMonth() + 1)`. -/
def stepMonth (dt : JDate) : JDate := jsSetMonth dt ((dt.month : Int) + 1)

/-- The cursor after `k` advances. -/
def stepK (d : JDate) : Nat → JDate
  | 0 => d
  | k + 1 => stepK (stepMonth d) k

theorem stepMonth_tod (d : JDate) : (stepMonth d).tod = d.tod := rfl

theorem mkDate_index_cases (y m d : Int) (hm : -12 ≤ m) :
    (d < 1 ∧ monthIndex (mkDate y m d) = y * 12 + m - 1) ∨
    (1 ≤ d ∧ d ≤ (daysInMonth (normYM y m).1 (normYM y m).2 : Int) ∧
      monthIndex (mkDate y m d) = y * 12 + m) ∨
    ((daysInMonth (normYM y m).1 (normYM y m).2 : Int) < d ∧
      monthIndex (mkDate y m d) = y * 12 + m + 1) := by
  have h0 := normYM_index y m hm
  simp only [mkDate, monthIndex]
  split_ifs with h1 h2
  · left
    refine ⟨h1, ?_⟩
    have h3 := normYM_index (normYM y m).1 ((normYM y m).2 - 1) (by omega)
    dsimp only
    omega
  · right; left
    exact ⟨by omega, h2, by simpa using h0⟩
  · right; right
    refine ⟨by omega, ?_⟩
    have h3 := normYM_index (normYM y m).1 ((normYM y m).2 + 1) (by omega)
    dsimp only
    omega

theorem mkDate_day_pos (y m d : Int) (hd : 0 ≤ d) : 1 ≤ (mkDate y m d).day := by
  simp only [mkDate]
  split_ifs with h1 h2
  · have h3 := daysInMonth_ge (normYM (normYM y m).1 ((normYM y m).2 - 1)).1
      (normYM (normYM y m).1 ((normYM y m).2 - 1)).2
    simp only
    omega
  · simp only; omega
  · simp only; omega

theorem mkDate_month_lt (y m d : Int) (hm1 : -12 ≤ m) (hm2 : m < 24) :
    (mkDate y m d).month < 12 := by
  have h0 := normYM_month_lt y m hm1 hm2
  simp only [mkDate]
  split_ifs with h1 h2
  · exact normYM_month_lt _ _ (by omega) (by omega)
  · exact h0
  · exact normYM_month_lt _ _ (by omega) (by omega)

theorem stepMonth_index_pos (d : JDate) (h : 1 ≤ d.day) :
    monthIndex d + 1 ≤ monthIndex (stepMonth d) ∧
      monthIndex (stepMonth d) ≤ monthIndex d + 2 := by
  have h0 := mkDate_index_cases d.year ((d.month : Int) + 1) d.day (by omega)
  have h1 : monthIndex (stepMonth d) =
      monthIndex (mkDate d.year ((d.month : Int) + 1) d.day) := rfl
  simp only [monthIndex] at *
  omega

theorem stepMonth_index_zero (d : JDate) (h : d.day = 0) :
    monthIndex (stepMonth d) = monthIndex d := by
  have h0 := mkDate_index_cases d.year ((d.month : Int) + 1) d.day (by omega)
  have h1 : monthIndex (stepMonth d) =
      monthIndex (mkDate d.year ((d.month : Int) + 1) d.day) := rfl
  simp only [monthIndex] at *
  omega

theorem stepMonth_day_pos (d : JDate) : 1 ≤ (stepMonth d).day := by
  have := mkDate_day_pos d.year ((d.month : Int) + 1) d.day (by omega)
  exact this

theorem stepMonth_month_lt (d : JDate) (h : d.month < 12) :
    (stepMonth d).month < 12 := by
  have := mkDate_month_lt d.year ((d.month : Int) + 1) d.day (by omega) (by omega)
  exact this

theorem monthIndex_le_of_le (a b : JDate) (h : JDate.le a b) :
    monthIndex a ≤ monthIndex b := by
  unfold JDate.le at h; omega

theorem le_trans_jdate (a b c : JDate) (h1 : JDate.le a b) (h2 : JDate.le b c) :
    JDate.le a c := by
  unfold JDate.le at *; omega

theorem le_stepMonth (d : JDate) : JDate.le d (stepMonth d) := by
  rcases Nat.eq_zero_or_pos d.day with h | h
  · have h1 := stepMonth_index_zero d h
    have h2 := stepMonth_day_pos d
    unfold JDate.le
    omega
  · have h1 := stepMonth_index_pos d h
    unfold JDate.le
    omega

theorem le_stepK (d : JDate) (j : Nat) : JDate.le d (stepK d j) := by
  induction j generalizing d with
  | zero => show JDate.le d d; unfold JDate.le; omega
  | succ j ih => exact le_trans_jdate _ _ _ (le_stepMonth d) (ih (stepMonth d))

theorem stepK_month_lt (d : JDate) (j : Nat) (h : d.month < 12) :
    (stepK d j).month < 12 := by
  induction j generalizing d with
  | zero => exact h
  | succ j ih => exact ih (stepMonth d) (stepMonth_month_lt d h)

theorem stepK_index_lower (d : JDate) (j : Nat) (hd : 1 ≤ d.day) :
    monthIndex d + j ≤ monthIndex (stepK d j) := by
  induction j generalizing d with
  | zero => show monthIndex d + (0 : Nat) ≤ monthIndex d; omega
  | succ j ih =>
    have h1 := stepMonth_index_pos d hd
    have h2 := ih (stepMonth d) (stepMonth_day_pos d)
    show monthIndex d + (j + 1 : Nat) ≤ monthIndex (stepK (stepMonth d) j)
    push_cast
    omega

theorem stepK_index_lower_weak (d : JDate) (j : Nat) :
    monthIndex d + j - 1 ≤ monthIndex (stepK d j) := by
  rcases Nat.eq_zero_or_pos d.day with h | h
  · match j with
    | 0 => show monthIndex d + (0 : Nat) - 1 ≤ monthIndex d; omega
    | j + 1 =>
      have h1 := stepMonth_index_zero d h
      have h2 := stepK_index_lower (stepMonth d) j (stepMonth_day_pos d)
      show monthIndex d + (j + 1 : Nat) - 1 ≤ monthIndex (stepK (stepMonth d) j)
      push_cast
      omega
  · have := stepK_index_lower d j h
    omega

/-- When the cursor's day of month is at most 28 it exists in every month, so
`setMonth(month + 1)` advances by exactly one calendar month, preserving the
day and the time of day. -/
theorem stepMonth_small (d : JDate) (hm : d.month < 12) (h1 : 1 ≤ d.day)
    (h2 : d.day ≤ 28) :
    (stepMonth d).day = d.day ∧ (stepMonth d).tod = d.tod ∧
      (stepMonth d).month < 12 ∧ monthIndex (stepMonth d) = monthIndex d + 1 := by
  refine ⟨?_, rfl, stepMonth_month_lt d hm, ?_⟩
  · show (mkDate d.year ((d.month : Int) + 1) d.day).day = d.day
    have hge := daysInMonth_ge (normYM d.year ((d.month : Int) + 1)).1
      (normYM d.year ((d.month : Int) + 1)).2
    simp only [mkDate]
    split_ifs with g1 g2
    · omega
    · simp
    · omega
  · have h0 := mkDate_index_cases d.year ((d.month : Int) + 1) d.day (by omega)
    have hge := daysInMonth_ge (normYM d.year ((d.month : Int) + 1)).1
      (normYM d.year ((d.month : Int) + 1)).2
    have h1' : monthIndex (stepMonth d) =
        monthIndex (mkDate d.year ((d.month : Int) + 1) d.day) := rfl
    simp only [monthIndex] at *
    omega

theorem stepK_small (d : JDate) (k : Nat) (hm : d.month < 12) (h1 : 1 ≤ d.day)
    (h2 : d.day ≤ 28) :
    (stepK d k).day = d.day ∧ (stepK d k).tod = d.tod ∧
      (stepK d k).month < 12 ∧ monthIndex (stepK d k) = monthIndex d + k := by
  induction k generalizing d with
  | zero => exact ⟨rfl, rfl, hm, by simp [stepK]⟩
  | succ k ih =>
    obtain ⟨s1, s2, s3, s4⟩ := stepMonth_small d hm h1 h2
    obtain ⟨t1, t2, t3, t4⟩ := ih (stepMonth d) s3 (by omega) (by omega)
    refine ⟨?_, ?_, t3, ?_⟩
    · show (stepK (stepMonth d) k).day = d.day
      rw [t1, s1]
    · show (stepK (stepMonth d) k).tod = d.tod
      rw [t2, s2]
    · show monthIndex (stepK (stepMonth d) k) = monthIndex d + (k + 1 : Nat)
      push_cast
      omega

/-!
Data model, mirroring the `RecurringTransaction` and `Transaction` record
shapes used by `recurringTransactions.ts` (and the SQL schema).  Timestamps
(`created_at` / `updated_at`) are modelled as `JDate` values; the ambient
clock (`new Date()`) and the id generator (`crypto.randomUUID()`) are
injected as explicit parameters `now` / `fresh`.
-/

inductive TxType
  | income
  | expense
deriving DecidableEq, Repr

inductive TxStatus
  | pending
  | completed
deriving DecidableEq, Repr

structure RecurringTransaction where
  id : String
  description : String
  amount : Int
  type : TxType
  category : String
  day_of_month : Nat
  user_id : String
  is_active : Bool
  end_date : Option JDate
  created_at : JDate
  updated_at : JDate
deriving DecidableEq, Repr

structure Transaction where
  id : String
  description : String
  amount : Int
  type : TxType
  category : String
  date : JDate
  status : TxStatus
  recurring_transaction_id : Option String
  user_id : String
  created_at : JDate
  updated_at : JDate
deriving DecidableEq, Repr

/-- The persistent store visible to the engine: the two supabase tables. -/
structure Store where
  recurring : List RecurringTransaction
  transactions : List Transaction
deriving DecidableEq, Repr

/-- Abstraction of the `transactions` existence query issued by
`checkExistingTransaction`: given a template id and a month range, the store
returns either an error or the (at most one, because of `.limit(1)`) matching
ids.  A concrete store yields `storeDB`; a failing store is modelled by a
function returning `.error`. -/
def QueryDB : Type := String → JDate → JDate → Except Unit (List String)

/-- The query `select id ... eq recurring_transaction_id ... gte date start
... lte date end ... limit 1` run against an in-memory list of transactions
(date comparison on ISO strings coincides with chronological comparison). -/
def storeDB (store : List Transaction) : QueryDB := fun rid s e =>
  .ok ((((store.filter (fun t =>
    t.recurring_transaction_id == some rid &&
    JDate.ble s t.date && JDate.ble t.date e)).map (fun t => t.id)).take 1))

/-- A store whose existence query always fails. -/
def failingDB : QueryDB := fun _ _ _ => .error ()

/-- `checkExistingTransaction(recurringTransactionId, date)`: query for an
instance of this template inside the calendar month of `date`
(`startOfMonth = new Date(y, m, 1)`, `endOfMonth = new Date(y, m + 1, 0)`);
on a store error it logs and returns `false`. -/
def checkExistingTransaction (db : QueryDB) (recurringTransactionId : String)
    (date : JDate) : Bool :=
  let startOfMonth := mkDate date.year (date.month : Int) 1
  let endOfMonth := mkDate date.year ((date.month : Int) + 1) 0
  match db recurringTransactionId startOfMonth endOfMonth with
  | .error _ => false
  | .ok data => decide (data.length > 0)

/-- The transaction record pushed by the generator's loop body for cursor
position `current`: all descriptive fields copied from the template, date
`new Date(current.getFullYear(), current.getMonth(), day_of_month)`,
status pending. -/
def genInstance (rt : RecurringTransaction) (current : JDate) (now : JDate)
    (newId : String) : Transaction :=
  { id := newId
    description := rt.description
    amount := rt.amount
    type := rt.type
    category := rt.category
    date := mkDate current.year (current.month : Int) (rt.day_of_month : Int)
    status := .pending
    recurring_transaction_id := some rt.id
    user_id := rt.user_id
    created_at := now
    updated_at := now }

/-- Fuel bound on the number of iterations of the generator's `while` loop
from cursor `c` to window end `e`: the cursor gains at least one month per
iteration (except for a single initial stall when `c.day = 0`, which cannot
recur), so this strictly decreases along the loop while the guard holds. -/
def boundFor (e c : JDate) : Nat :=
  2 * (monthIndex e + 1 - monthIndex c).toNat + (if c.day = 0 then 2 else 1)

/-- The generator's `while (current <= endDate)` loop, with explicit fuel
(always called with sufficient fuel, see `boundFor_pos` / `boundFor_step`):
skip the month when `checkExistingTransaction` reports an instance, otherwise
push a new pending instance; then `current.setMonth(current.getMonth() + 1)`.
`k` numbers the emitted instances for the injected id supply. -/
def genFuel (db : QueryDB) (rt : RecurringTransaction) (endDate now : JDate)
    (fresh : Nat → String) : Nat → JDate → Nat → List Transaction
  | 0, _, _ => []
  | fuel + 1, current, k =>
    if JDate.ble current endDate then
      if checkExistingTransaction db rt.id current then
        genFuel db rt endDate now fresh fuel (stepMonth current) k
      else
        genInstance rt current now (fresh k) ::
          genFuel db rt endDate now fresh fuel (stepMonth current) (k + 1)
    else []

/-- `generateRecurringTransactions(recurringTransaction, startDate, endDate)`:
expand the template month by month over `[startDate, endDate]`, returning the
list of new instances (the loop with provably sufficient fuel). -/
def generateRecurringTransactions (db : QueryDB) (rt : RecurringTransaction)
    (startDate endDate now : JDate) (fresh : Nat → String) : List Transaction :=
  genFuel db rt endDate now fresh (boundFor endDate startDate) startDate 0

theorem boundFor_pos (e c : JDate) : 1 ≤ boundFor e c := by
  unfold boundFor; split_ifs <;> omega

theorem boundFor_step (e c : JDate) (h : JDate.le c e) :
    boundFor e (stepMonth c) < boundFor e c := by
  have hle := monthIndex_le_of_le c e h
  have hday := stepMonth_day_pos c
  rcases Nat.eq_zero_or_pos c.day with h0 | h0
  · have h1 := stepMonth_index_zero c h0
    unfold boundFor
    split_ifs <;> omega
  · have h1 := stepMonth_index_pos c h0
    unfold boundFor
    split_ifs <;> omega

theorem check_empty_store (rid : String) (d : JDate) :
    checkExistingTransaction (storeDB []) rid d = false := rfl

theorem check_failing (rid : String) (d : JDate) :
    checkExistingTransaction failingDB rid d = false := rfl

/-- `normYM` is the identity on already-normalized pairs. -/
theorem normYM_id (y : Int) (m : Nat) (hm : m < 12) :
    normYM y (m : Int) = (y, m) := by
  unfold normYM
  split_ifs with h1 h2
  · omega
  · simp
  · omega

/-- Evaluation of `new Date(y, m, d)` on a normalized month and a stored
day-of-month: either the day exists in the month and the date is literal, or
it overflows and rolls into the following calendar month. -/
theorem mkDate_eval (y : Int) (m : Nat) (d : Nat) (hm : m < 12) (hd : 1 ≤ d) :
    (d ≤ daysInMonth y m ∧ mkDate y (m : Int) (d : Int) = ⟨y, m, d, 0⟩) ∨
    (daysInMonth y m < d ∧
      monthIndex (mkDate y (m : Int) (d : Int)) = y * 12 + m + 1 ∧
      (mkDate y (m : Int) (d : Int)).day = d - daysInMonth y m) := by
  have hid := normYM_id y m hm
  rcases le_or_lt d (daysInMonth y m) with h | h
  · left
    refine ⟨h, ?_⟩
    simp only [mkDate, hid]
    split_ifs with g1 g2
    · omega
    · simp
    · omega
  · right
    refine ⟨h, ?_, ?_⟩
    · have h0 := mkDate_index_cases y (m : Int) (d : Int) (by omega)
      rw [hid] at h0
      simp only [monthIndex] at *
      omega
    · simp only [mkDate, hid]
      split_ifs with g1 g2
      · omega
      · omega
      · simp only
        omega

/-- Every transaction emitted by the generator loop is the instance for some
cursor position whose month is normalized. -/
theorem genFuel_mem_cursor (db : QueryDB) (rt : RecurringTransaction)
    (e now : JDate) (fresh : Nat → String) :
    ∀ (fuel : Nat) (c : JDate) (k : Nat) (tx : Transaction), c.month < 12 →
      tx ∈ genFuel db rt e now fresh fuel c k →
      ∃ cur : JDate, cur.month < 12 ∧
        tx.date = mkDate cur.year (cur.month : Int) (rt.day_of_month : Int) := by
  intro fuel
  induction fuel with
  | zero => intro c k tx _ h; simp [genFuel] at h
  | succ fuel ih =>
    intro c k tx hm h
    simp only [genFuel] at h
    split_ifs at h with h1 h2
    · exact ih (stepMonth c) k tx (stepMonth_month_lt c hm) h
    · rcases List.mem_cons.mp h with h3 | h3
      · exact ⟨c, hm, by rw [h3]; rfl⟩
      · exact ih (stepMonth c) (k + 1) tx (stepMonth_month_lt c hm) h3
    · simp at h

/-- C1 (amended): every instance emitted by `generateRecurringTransactions`
carries the date `new Date(year, month, dayOfMonth)` of its cursor month;
when `dayOfMonth` exists in that month this is the literal date in that
month, and when `dayOfMonth` exceeds the month's length the date rolls over
into the following calendar month with day `dayOfMonth - daysInMonth`
(roll-over, not the clamp-down the claim states). -/
theorem generate_day_overflow (db : QueryDB) (rt : RecurringTransaction)
    (s e now : JDate) (fresh : Nat → String) (hm : s.month < 12)
    (h1 : 1 ≤ rt.day_of_month) :
    ∀ tx ∈ generateRecurringTransactions db rt s e now fresh,
      ∃ (y : Int) (m : Nat), m < 12 ∧
        tx.date = mkDate y (m : Int) (rt.day_of_month : Int) ∧
        ((rt.day_of_month ≤ daysInMonth y m ∧ tx.date = ⟨y, m, rt.day_of_month, 0⟩) ∨
         (daysInMonth y m < rt.day_of_month ∧
           monthIndex tx.date = y * 12 + m + 1 ∧
           tx.date.day = rt.day_of_month - daysInMonth y m)) := by
  intro tx htx
  obtain ⟨cur, hcur, hdate⟩ :=
    genFuel_mem_cursor db rt e now fresh (boundFor e s) s 0 tx hm htx
  refine ⟨cur.year, cur.month, hcur, hdate, ?_⟩
  rcases mkDate_eval cur.year cur.month rt.day_of_month hcur h1 with ⟨g1, g2⟩ | ⟨g1, g2, g3⟩
  · exact Or.inl ⟨g1, by rw [hdate, g2]⟩
  · exact Or.inr ⟨g1, by rw [hdate]; exact g2, by rw [hdate]; exact g3⟩

/-- Shared fixture: a day-31 template. -/
def rt31 : RecurringTransaction :=
  { id := "a", description := "rent", amount := 1200, type := .expense,
    category := "home", day_of_month := 31, user_id := "u",
    is_active := true, end_date := none,
    created_at := ⟨2023, 0, 1, 0⟩, updated_at := ⟨2023, 0, 1, 0⟩ }

/-- Shared fixture: a day-15 template. -/
def rt15 : RecurringTransaction :=
  { id := "a", description := "gym", amount := 80, type := .expense,
    category := "health", day_of_month := 15, user_id := "u",
    is_active := true, end_date := none,
    created_at := ⟨2023, 0, 1, 0⟩, updated_at := ⟨2023, 0, 1, 0⟩ }

/-- Shared fixture: a fixed clock. -/
def clk : JDate := ⟨2023, 0, 1, 0⟩

/-- Shared fixture: a constant id supply. -/
def fr : Nat → String := fun _ => "x"

/-- C1 (counterexample): for the day-31 template over the single February 2023
cursor month, the emitted instance is dated March 3, 2023 — a date in the
following month — not the clamped February 28 the claim requires. -/
theorem generate_day_overflow_cx :
    (generateRecurringTransactions (storeDB []) rt31 ⟨2023, 1, 1, 0⟩
        ⟨2023, 1, 20, 0⟩ clk fr).map (fun t => t.date) =
      [⟨2023, 2, 3, 0⟩] ∧ (⟨2023, 2, 3, 0⟩ : JDate).month ≠ 1 := by
  constructor
  · rfl
  · decide

/-- C1 (witness): the amended theorem applied to the February 2023 run of the
day-31 template. -/
theorem generate_day_overflow_witness :
    (⟨2023, 1, 1, 0⟩ : JDate).month < 12 ∧ 1 ≤ rt31.day_of_month ∧
      (∃ (y : Int) (m : Nat), m < 12 ∧
        (genInstance rt31 ⟨2023, 1, 1, 0⟩ clk "x").date =
          mkDate y (m : Int) (rt31.day_of_month : Int) ∧
        ((rt31.day_of_month ≤ daysInMonth y m ∧
          (genInstance rt31 ⟨2023, 1, 1, 0⟩ clk "x").date = ⟨y, m, rt31.day_of_month, 0⟩) ∨
         (daysInMonth y m < rt31.day_of_month ∧
           monthIndex (genInstance rt31 ⟨2023, 1, 1, 0⟩ clk "x").date = y * 12 + m + 1 ∧
           (genInstance rt31 ⟨2023, 1, 1, 0⟩ clk "x").date.day =
             rt31.day_of_month - daysInMonth y m))) :=
  ⟨by decide, by decide,
    generate_day_overflow (storeDB []) rt31 ⟨2023, 1, 1, 0⟩ ⟨2023, 1, 20, 0⟩ clk fr
      (by decide) (by decide) (genInstance rt31 ⟨2023, 1, 1, 0⟩ clk "x") (by decide)⟩

/-- The generator run against an empty store, for a start cursor whose day of
month (at most 28) exists in every month: it emits one instance per cursor
position, the cursor positions being exactly those reachable by single-month
steps that still satisfy the loop guard. -/
theorem genFuel_empty_run (rt : RecurringTransaction) (e now : JDate)
    (fresh : Nat → String) :
    ∀ (fuel : Nat) (c : JDate) (k0 : Nat), boundFor e c ≤ fuel →
      c.month < 12 → 1 ≤ c.day → c.day ≤ 28 →
      ∃ n : Nat,
        genFuel (storeDB []) rt e now fresh fuel c k0 =
          (List.range n).map (fun j => genInstance rt (stepK c j) now (fresh (k0 + j))) ∧
        ∀ j : Nat, JDate.le (stepK c j) e ↔ j < n := by
  intro fuel
  induction fuel with
  | zero =>
    intro c k0 hf _ _ _
    have := boundFor_pos e c
    omega
  | succ fuel ih =>
    intro c k0 hf hm hd1 hd2
    by_cases hle : JDate.le c e
    · have hble : JDate.ble c e = true := (JDate.ble_iff c e).mpr hle
      obtain ⟨s1, s2, s3, s4⟩ := stepMonth_small c hm hd1 hd2
      have hf2 : boundFor e (stepMonth c) ≤ fuel := by
        have := boundFor_step e c hle
        omega
      obtain ⟨n, g1, g2⟩ := ih (stepMonth c) (k0 + 1) hf2 s3 (by omega) (by omega)
      refine ⟨n + 1, ?_, ?_⟩
      · simp only [genFuel, hble, if_true, check_empty_store, if_false,
          Bool.false_eq_true]
        rw [List.range_succ_eq_map, List.map_cons, List.map_map, g1]
        refine congrArg₂ _ rfl (List.map_congr_left ?_)
        intro j _
        show genInstance rt (stepK (stepMonth c) j) now (fresh (k0 + 1 + j)) =
          genInstance rt (stepK c (j + 1)) now (fresh (k0 + (j + 1)))
        have : k0 + 1 + j = k0 + (j + 1) := by omega
        rw [this]
        rfl
      · intro j
        match j with
        | 0 =>
          constructor
          · intro _; omega
          · intro _; exact hle
        | j + 1 =>
          show JDate.le (stepK (stepMonth c) j) e ↔ j + 1 < n + 1
          rw [g2 j]
          omega
    · have hble : JDate.ble c e = false := (JDate.ble_eq_false c e).mpr hle
      refine ⟨0, by simp [genFuel, hble], ?_⟩
      intro j
      constructor
      · intro hc
        exact absurd (le_trans_jdate c (stepK c j) e (le_stepK c j) hc) hle
      · intro h
        exact absurd h (by omega)

/-- C2 (amended): against an empty store, when the window start's day of
month is at most 28 (so that it exists in every month and `setMonth` cannot
skip a month), the generator emits exactly one instance per visited cursor
month, the visited cursors are the consecutive single-month steps of the
start date that satisfy the loop guard `cursor ≤ windowEnd`, and the `j`-th
visited cursor is exactly `j` calendar months after the start.  (As the
counterexample shows, for a start day of 29–31 a month can be skipped
outright, and the window end's own month is visited only if the stepped
cursor date — not just its month — is at most `windowEnd`.) -/
theorem generate_consecutive_months (rt : RecurringTransaction)
    (s e now : JDate) (fresh : Nat → String) (hm : s.month < 12)
    (hd1 : 1 ≤ s.day) (hd2 : s.day ≤ 28) :
    ∃ n : Nat,
      generateRecurringTransactions (storeDB []) rt s e now fresh =
        (List.range n).map (fun j => genInstance rt (stepK s j) now (fresh j)) ∧
      (∀ j : Nat, JDate.le (stepK s j) e ↔ j < n) ∧
      (∀ j : Nat, monthIndex (stepK s j) = monthIndex s + j) := by
  obtain ⟨n, g1, g2⟩ :=
    genFuel_empty_run rt e now fresh (boundFor e s) s 0 (le_refl _) hm hd1 hd2
  refine ⟨n, ?_, g2, fun j => (stepK_small s j hm hd1 hd2).2.2.2⟩
  rw [show generateRecurringTransactions (storeDB []) rt s e now fresh =
    genFuel (storeDB []) rt e now fresh (boundFor e s) s 0 from rfl, g1]
  exact List.map_congr_left fun j _ => by rw [Nat.zero_add]

/-- C2 (counterexample): with window start January 31, 2024 and window end
April 1, 2024, the cursor steps January 31 → March 2 → April 2, so the run
emits instances only for January and March: February (a month strictly
between the window start's and end's months) is skipped, and April (the
window end's month) is never visited — refuting "every calendar month
between windowStart's month and windowEnd's month exactly once". -/
theorem generate_consecutive_months_cx :
    (generateRecurringTransactions (storeDB []) rt15 ⟨2024, 0, 31, 0⟩
        ⟨2024, 3, 1, 0⟩ clk fr).map (fun t => (t.date.year, t.date.month)) =
      [(2024, 0), (2024, 2)] ∧
    ¬ ((2024, 1) ∈ (generateRecurringTransactions (storeDB []) rt15
        ⟨2024, 0, 31, 0⟩ ⟨2024, 3, 1, 0⟩ clk fr).map
          (fun t => (t.date.year, t.date.month))) ∧
    ¬ ((2024, 3) ∈ (generateRecurringTransactions (storeDB []) rt15
        ⟨2024, 0, 31, 0⟩ ⟨2024, 3, 1, 0⟩ clk fr).map
          (fun t => (t.date.year, t.date.month))) := by
  refine ⟨by rfl, ?_, ?_⟩ <;> decide

/-- C2 (witness): the amended theorem applied to the window January 15 –
March 10, 2024, where the guard admits exactly the January and February
cursors. -/
theorem generate_consecutive_months_witness :
    (⟨2024, 0, 15, 0⟩ : JDate).month < 12 ∧ 1 ≤ (⟨2024, 0, 15, 0⟩ : JDate).day ∧
      (⟨2024, 0, 15, 0⟩ : JDate).day ≤ 28 ∧
      ∃ n : Nat,
        generateRecurringTransactions (storeDB []) rt15 ⟨2024, 0, 15, 0⟩
            ⟨2024, 2, 10, 0⟩ clk fr =
          (List.range n).map (fun j =>
            genInstance rt15 (stepK ⟨2024, 0, 15, 0⟩ j) clk (fr j)) ∧
        (∀ j : Nat, JDate.le (stepK ⟨2024, 0, 15, 0⟩ j) ⟨2024, 2, 10, 0⟩ ↔ j < n) ∧
        (∀ j : Nat, monthIndex (stepK ⟨2024, 0, 15, 0⟩ j) =
          monthIndex ⟨2024, 0, 15, 0⟩ + j) :=
  ⟨by decide, by decide, by decide,
    generate_consecutive_months rt15 ⟨2024, 0, 15, 0⟩ ⟨2024, 2, 10, 0⟩ clk fr
      (by decide) (by decide) (by decide)⟩

theorem genFuel_mem_tod_zero (db : QueryDB) (rt : RecurringTransaction)
    (e now : JDate) (fresh : Nat → String) :
    ∀ (fuel : Nat) (c : JDate) (k : Nat) (tx : Transaction),
      tx ∈ genFuel db rt e now fresh fuel c k → tx.date.tod = 0 := by
  intro fuel
  induction fuel with
  | zero => intro c k tx h; simp [genFuel] at h
  | succ fuel ih =>
    intro c k tx h
    simp only [genFuel] at h
    split_ifs at h with h1 h2
    · exact ih (stepMonth c) k tx h
    · rcases List.mem_cons.mp h with h3 | h3
      · rw [h3]; exact mkDate_tod _ _ _
      · exact ih (stepMonth c) (k + 1) tx h3
    · simp at h

/-- C8 (amended): every instance emitted by `generateRecurringTransactions`
carries a date with time of day `0` — local **midnight**, since the date is
built by `new Date(year, month, day)` with no time component — not the local
noon the claim states. -/
theorem generate_date_midnight (db : QueryDB) (rt : RecurringTransaction)
    (s e now : JDate) (fresh : Nat → String) :
    ∀ tx ∈ generateRecurringTransactions db rt s e now fresh,
      tx.date.tod = 0 :=
  fun tx htx => genFuel_mem_tod_zero db rt e now fresh (boundFor e s) s 0 tx htx

/-- C8 (counterexample): the January 2024 instance of the day-15 template is
dated at time of day `0` (midnight), not at noon (`12 * 60 * 60 * 1000`
milliseconds). -/
theorem generate_date_midnight_cx :
    (generateRecurringTransactions (storeDB []) rt15 ⟨2024, 0, 15, 0⟩
        ⟨2024, 0, 20, 0⟩ clk fr).map (fun t => t.date.tod) = [0] ∧
      (0 : Nat) ≠ 12 * 60 * 60 * 1000 := by
  exact ⟨rfl, by decide⟩

/-- C8 (witness): the amended theorem applied to a concrete emitted instance. -/
theorem generate_date_midnight_witness :
    (genInstance rt15 ⟨2024, 0, 15, 0⟩ clk "x").date.tod = 0 :=
  generate_date_midnight (storeDB []) rt15 ⟨2024, 0, 15, 0⟩ ⟨2024, 0, 20, 0⟩ clk fr
    (genInstance rt15 ⟨2024, 0, 15, 0⟩ clk "x") (by decide)

/-- C9: when `windowStart > windowEnd` the loop guard fails immediately and
`generateRecurringTransactions` returns the empty list (no error: the
function is total). -/
theorem generate_empty_window (db : QueryDB) (rt : RecurringTransaction)
    (s e now : JDate) (fresh : Nat → String) (h : JDate.blt e s = true) :
    generateRecurringTransactions db rt s e now fresh = [] := by
  have hble : JDate.ble s e = false := by
    unfold JDate.blt at h
    cases hh : JDate.ble s e
    · rfl
    · rw [hh] at h; simp at h
  unfold generateRecurringTransactions
  obtain ⟨n, hn⟩ : ∃ n, boundFor e s = n + 1 :=
    ⟨boundFor e s - 1, by have := boundFor_pos e s; omega⟩
  rw [hn]
  simp [genFuel, hble]

/-- C9 (witness): a window ending the day before it starts yields no
instances. -/
theorem generate_empty_window_witness :
    JDate.blt ⟨2024, 0, 14, 0⟩ ⟨2024, 0, 15, 0⟩ = true ∧
      generateRecurringTransactions (storeDB []) rt15 ⟨2024, 0, 15, 0⟩
        ⟨2024, 0, 14, 0⟩ clk fr = [] :=
  ⟨by decide, generate_empty_window (storeDB []) rt15 ⟨2024, 0, 15, 0⟩
    ⟨2024, 0, 14, 0⟩ clk fr (by decide)⟩

theorem genFuel_db_congr (rt : RecurringTransaction) (e now : JDate)
    (fresh : Nat → String) (db1 db2 : QueryDB)
    (h : ∀ rid d, checkExistingTransaction db1 rid d =
      checkExistingTransaction db2 rid d) :
    ∀ (fuel : Nat) (c : JDate) (k : Nat),
      genFuel db1 rt e now fresh fuel c k = genFuel db2 rt e now fresh fuel c k := by
  intro fuel
  induction fuel with
  | zero => intro c k; rfl
  | succ fuel ih =>
    intro c k
    simp only [genFuel, h rt.id c, ih (stepMonth c)]

/-- C10: a failing existence query is swallowed — `checkExistingTransaction`
returns `false` on a store error, so the generator behaves exactly as over an
empty store (no error is propagated, and every visited month is emitted).
In particular, even when the store does hold an instance for the (template,
month) pair — so that a healthy store would suppress the month — the run
against the failing store still emits an instance for it (a duplicate). -/
theorem check_error_treated_as_absent :
    (∀ (rid : String) (d : JDate),
      checkExistingTransaction failingDB rid d = false) ∧
    (∀ (rt : RecurringTransaction) (s e now : JDate) (fresh : Nat → String),
      generateRecurringTransactions failingDB rt s e now fresh =
        generateRecurringTransactions (storeDB []) rt s e now fresh) ∧
    (checkExistingTransaction
        (storeDB [genInstance rt15 ⟨2024, 0, 15, 0⟩ clk "x"]) rt15.id
        ⟨2024, 0, 15, 0⟩ = true ∧
      (generateRecurringTransactions failingDB rt15 ⟨2024, 0, 15, 0⟩
        ⟨2024, 0, 20, 0⟩ clk fr).map (fun t => (t.date.year, t.date.month)) =
        [(2024, 0)]) := by
  refine ⟨fun _ _ => rfl, ?_, by decide, by rfl⟩
  intro rt s e now fresh
  exact genFuel_db_congr rt e now fresh failingDB (storeDB [])
    (fun rid d => rfl) (boundFor e s) s 0

/-- `removeFuturePendingTransactions(recurringTransactionId, fromDate)`:
`delete ... eq recurring_transaction_id ... eq status pending ... gte date
fromDate` — the surviving store contents. -/
def removeFuturePendingTransactions (store : List Transaction)
    (recurringTransactionId : String) (fromDate : JDate) : List Transaction :=
  store.filter (fun t =>
    !(t.recurring_transaction_id == some recurringTransactionId &&
      t.status == TxStatus.pending && JDate.ble fromDate t.date))

/-- `updateRecurringTransaction(id, updates, effectiveFromDate)`: patch the
template row (spread of `updates` plus an `updated_at` bump), delete the
future pending instances from the effective date on, re-fetch the patched
template (`.single()`, an error when the id resolves to no row), generate
over `[effectiveDate, now + 2 years]` against the store as left by the
deletion, and append the generated batch.  The field patch `updates` is
modelled as a record transformer. -/
def updateRecurringTransaction (st : Store) (id : String)
    (updates : RecurringTransaction → RecurringTransaction)
    (effectiveDate now : JDate) (fresh : Nat → String) : Except String Store :=
  let recurring2 := st.recurring.map (fun r =>
    if r.id == id then { updates r with updated_at := now } else r)
  let txs2 := removeFuturePendingTransactions st.transactions id effectiveDate
  match recurring2.find? (fun r => r.id == id) with
  | none => .error "recurring transaction not found"
  | some rt =>
    let endDate := jsSetFullYear now (now.year + 2)
    let newTransactions :=
      generateRecurringTransactions (storeDB txs2) rt effectiveDate endDate now fresh
    .ok { recurring := recurring2, transactions := txs2 ++ newTransactions }

/-- `deleteRecurringTransaction(id, effectiveFromDate)`: delete the future
pending instances from the effective date on (using its full timestamp),
then compare the date-only parts (`setHours(0,0,0,0)`) of the effective date
and today: at or before today, deactivate the template; strictly after
today, record the effective date (at midnight) as the template's end date. -/
def deleteRecurringTransaction (st : Store) (id : String)
    (effectiveDate now : JDate) : Store :=
  let txs2 := removeFuturePendingTransactions st.transactions id effectiveDate
  let today := jsSetHoursZero now
  let eff0 := jsSetHoursZero effectiveDate
  if JDate.ble eff0 today then
    { recurring := st.recurring.map (fun r =>
        if r.id == id then { r with is_active := false, updated_at := now } else r)
      transactions := txs2 }
  else
    { recurring := st.recurring.map (fun r =>
        if r.id == id then { r with end_date := some eff0, updated_at := now } else r)
      transactions := txs2 }

/-- C4: the instance deletion shared by `updateRecurringTransaction` and
`deleteRecurringTransaction` removes exactly the pending instances of the
template dated at or after the effective date: the survivors are a sublist
of the store, an instance survives iff it is not (this template ∧ pending ∧
dated ≥ effective date); in particular every completed instance and every
instance dated strictly before the effective date survives; and the two
reconciler entry points indeed leave exactly these survivors in the store
(`updateRecurringTransaction` then appends its regenerated batch to them). -/
theorem removeFuture_exact (store : List Transaction) (rid : String)
    (d : JDate) :
    (removeFuturePendingTransactions store rid d).Sublist store ∧
    (∀ t : Transaction, t ∈ removeFuturePendingTransactions store rid d ↔
      (t ∈ store ∧ ¬(t.recurring_transaction_id = some rid ∧
        t.status = TxStatus.pending ∧ JDate.le d t.date))) ∧
    (∀ t ∈ store, t.status = TxStatus.completed →
      t ∈ removeFuturePendingTransactions store rid d) ∧
    (∀ t ∈ store, ¬ JDate.le d t.date →
      t ∈ removeFuturePendingTransactions store rid d) ∧
    (∀ (st : Store) (now : JDate),
      (deleteRecurringTransaction st rid d now).transactions =
        removeFuturePendingTransactions st.transactions rid d) ∧
    (∀ (st : Store) (updates : RecurringTransaction → RecurringTransaction)
        (now : JDate) (fresh : Nat → String) (st2 : Store),
      updateRecurringTransaction st rid updates d now fresh = .ok st2 →
      ∀ t ∈ removeFuturePendingTransactions st.transactions rid d,
        t ∈ st2.transactions) := by
  have hmem : ∀ (store : List Transaction) (t : Transaction),
      t ∈ removeFuturePendingTransactions store rid d ↔
      (t ∈ store ∧ ¬(t.recurring_transaction_id = some rid ∧
        t.status = TxStatus.pending ∧ JDate.le d t.date)) := by
    intro store t
    unfold removeFuturePendingTransactions
    rw [List.mem_filter]
    apply and_congr_right
    intro _
    rw [Bool.not_eq_true']
    rw [show (JDate.ble d t.date) = decide (JDate.le d t.date) from rfl]
    simp [-Bool.decide_and]
  refine ⟨List.filter_sublist _, hmem store, ?_, ?_, ?_, ?_⟩
  · intro t ht hc
    exact (hmem store t).mpr
      ⟨ht, by rintro ⟨_, g2, _⟩; rw [hc] at g2; exact absurd g2 (by decide)⟩
  · intro t ht hd
    exact (hmem store t).mpr ⟨ht, by rintro ⟨_, _, g3⟩; exact hd g3⟩
  · intro st now
    simp only [deleteRecurringTransaction]
    split_ifs <;> rfl
  · intro st updates now fresh st2 hok t ht
    simp only [updateRecurringTransaction] at hok
    split at hok
    · exact absurd hok (by simp)
    · simp only [Except.ok.injEq] at hok
      rw [← hok]
      exact List.mem_append_left _ ht

/-- Fixture: a pending future-dated instance of template `"a"`. -/
def txPendFut : Transaction :=
  { id := "t1", description := "rent", amount := 1200, type := .expense,
    category := "home", date := ⟨2024, 5, 10, 0⟩, status := .pending,
    recurring_transaction_id := some "a", user_id := "u",
    created_at := clk, updated_at := clk }

/-- Fixture: a completed future-dated instance of template `"a"`. -/
def txCompFut : Transaction :=
  { id := "t2", description := "rent", amount := 1200, type := .expense,
    category := "home", date := ⟨2024, 5, 10, 0⟩, status := .completed,
    recurring_transaction_id := some "a", user_id := "u",
    created_at := clk, updated_at := clk }

/-- Fixture: a pending past-dated instance of template `"a"`. -/
def txPendPast : Transaction :=
  { id := "t3", description := "rent", amount := 1200, type := .expense,
    category := "home", date := ⟨2024, 0, 10, 0⟩, status := .pending,
    recurring_transaction_id := some "a", user_id := "u",
    created_at := clk, updated_at := clk }

/-- C4 (witness): with effective date April 1, 2024, the completed future
instance and the pending past instance survive, while the pending future
instance is removed. -/
theorem removeFuture_exact_witness :
    txCompFut ∈ removeFuturePendingTransactions [txPendFut, txCompFut, txPendPast]
      "a" ⟨2024, 3, 1, 0⟩ ∧
    txPendPast ∈ removeFuturePendingTransactions [txPendFut, txCompFut, txPendPast]
      "a" ⟨2024, 3, 1, 0⟩ ∧
    ¬ (txPendFut ∈ removeFuturePendingTransactions [txPendFut, txCompFut, txPendPast]
      "a" ⟨2024, 3, 1, 0⟩) := by
  have h := removeFuture_exact [txPendFut, txCompFut, txPendPast] "a" ⟨2024, 3, 1, 0⟩
  refine ⟨h.2.2.1 txCompFut (by decide) (by decide),
    h.2.2.2.1 txPendPast (by decide) (by decide), ?_⟩
  intro hmem
  exact ((h.2.1 txPendFut).mp hmem).2 ⟨by decide, by decide, by decide⟩

/-- C5: `deleteRecurringTransaction` compares the date-only parts of the
effective date and of today: if the effective date is at or before today,
the template is deactivated (its end date untouched); if it is strictly
after today, the template's end date is set to the (midnight-normalized)
effective date and its active flag is left exactly as it was — in particular
an active template stays active. -/
theorem delete_cutoff (st : Store) (id : String) (eff now : JDate)
    (r : RecurringTransaction) (hr : r ∈ st.recurring) (hid : r.id = id) :
    (JDate.le (jsSetHoursZero eff) (jsSetHoursZero now) →
      { r with is_active := false, updated_at := now } ∈
        (deleteRecurringTransaction st id eff now).recurring) ∧
    (¬ JDate.le (jsSetHoursZero eff) (jsSetHoursZero now) →
      ({ r with end_date := some (jsSetHoursZero eff), updated_at := now } ∈
        (deleteRecurringTransaction st id eff now).recurring ∧
       ({ r with end_date := some (jsSetHoursZero eff), updated_at := now }
          : RecurringTransaction).is_active = r.is_active)) := by
  have hbid : (r.id == id) = true := beq_iff_eq.mpr hid
  constructor
  · intro h
    have hble : JDate.ble (jsSetHoursZero eff) (jsSetHoursZero now) = true :=
      (JDate.ble_iff _ _).mpr h
    simp only [deleteRecurringTransaction, hble, if_true]
    exact List.mem_map.mpr ⟨r, hr, by rw [hbid]; simp⟩
  · intro h
    have hble : JDate.ble (jsSetHoursZero eff) (jsSetHoursZero now) = false :=
      (JDate.ble_eq_false _ _).mpr h
    simp only [deleteRecurringTransaction, hble]
    refine ⟨List.mem_map.mpr ⟨r, hr, by rw [hbid]; simp⟩, trivial⟩

/-- Fixture: an active template with id `"a"` and no end date. -/
def rtDel : RecurringTransaction :=
  { id := "a", description := "rent", amount := 1200, type := .expense,
    category := "home", day_of_month := 5, user_id := "u",
    is_active := true, end_date := none,
    created_at := clk, updated_at := clk }

/-- Fixture: `rtDel` as left by an immediate delete at clock
`⟨2024, 0, 15, 100⟩`. -/
def rtDelStopped : RecurringTransaction :=
  { rtDel with is_active := false, updated_at := (⟨2024, 0, 15, 100⟩ : JDate) }

/-- Fixture: `rtDel` as left by a future-dated delete effective February 15,
2024, at clock `⟨2024, 0, 15, 100⟩`. -/
def rtDelEnded : RecurringTransaction :=
  { rtDel with end_date := some (jsSetHoursZero ⟨2024, 1, 15, 300⟩), updated_at := (⟨2024, 0, 15, 100⟩ : JDate) }

/-- C5 (witness): deleting with effective date yesterday deactivates the
template; deleting with effective date next month records it as the end date
and keeps the template active. -/
theorem delete_cutoff_witness :
    (rtDel ∈ (Store.mk [rtDel] []).recurring ∧ rtDel.id = "a" ∧
      JDate.le (jsSetHoursZero ⟨2024, 0, 14, 300⟩) (jsSetHoursZero ⟨2024, 0, 15, 100⟩) ∧
      rtDelStopped ∈
        (deleteRecurringTransaction (Store.mk [rtDel] []) "a"
          ⟨2024, 0, 14, 300⟩ ⟨2024, 0, 15, 100⟩).recurring) ∧
    (¬ JDate.le (jsSetHoursZero ⟨2024, 1, 15, 300⟩) (jsSetHoursZero ⟨2024, 0, 15, 100⟩) ∧
      rtDelEnded ∈
        (deleteRecurringTransaction (Store.mk [rtDel] []) "a"
          ⟨2024, 1, 15, 300⟩ ⟨2024, 0, 15, 100⟩).recurring ∧
      rtDelEnded.is_active = rtDel.is_active) :=
  ⟨⟨by decide, rfl, by decide,
    (delete_cutoff (Store.mk [rtDel] []) "a" ⟨2024, 0, 14, 300⟩ ⟨2024, 0, 15, 100⟩
      rtDel (by decide) rfl).1 (by decide)⟩,
   by decide,
    (delete_cutoff (Store.mk [rtDel] []) "a" ⟨2024, 1, 15, 300⟩ ⟨2024, 0, 15, 100⟩
      rtDel (by decide) rfl).2 (by decide)⟩

theorem mkDate_index_upper (y m d : Int) (hm : -12 ≤ m) :
    monthIndex (mkDate y m d) ≤ y * 12 + m + 1 := by
  rcases mkDate_index_cases y m d hm with ⟨_, h⟩ | ⟨_, _, h⟩ | ⟨_, h⟩ <;> omega

/-- Every transaction emitted by the generator loop is pending, references
the template, and is dated at most one calendar month past the window end
(the loop guard bounds the cursor month; the emitted date can roll over one
further month). -/
theorem genFuel_mem_props (db : QueryDB) (rt : RecurringTransaction)
    (e now : JDate) (fresh : Nat → String) :
    ∀ (fuel : Nat) (c : JDate) (k : Nat) (tx : Transaction),
      tx ∈ genFuel db rt e now fresh fuel c k →
      monthIndex tx.date ≤ monthIndex e + 1 ∧ tx.status = TxStatus.pending ∧
        tx.recurring_transaction_id = some rt.id := by
  intro fuel
  induction fuel with
  | zero => intro c k tx h; simp [genFuel] at h
  | succ fuel ih =>
    intro c k tx h
    simp only [genFuel] at h
    split_ifs at h with h1 h2
    · exact ih (stepMonth c) k tx h
    · rcases List.mem_cons.mp h with h3 | h3
      · have hle := monthIndex_le_of_le c e ((JDate.ble_iff c e).mp h1)
        have hub := mkDate_index_upper c.year (c.month : Int)
          (rt.day_of_month : Int) (by omega)
        rw [h3]
        refine ⟨?_, rfl, rfl⟩
        show monthIndex (mkDate c.year (c.month : Int) (rt.day_of_month : Int)) ≤ _
        simp only [monthIndex] at *
        omega
      · exact ih (stepMonth c) (k + 1) tx h3
    · simp at h

/-- C6 (amended): every transaction present in the store after a successful
`updateRecurringTransaction` is either a survivor of the pending-future
deletion or a freshly regenerated pending instance of the template dated at
most one calendar month past `now + 2 years` — the regeneration window is
`[effectiveDate, now + 2 years]`, anchored at the call-time clock and
**ignoring `template.endDate`** (as the counterexample shows, regenerated
instances can be dated after the template's end date, contradicting the
claim's `min(effectiveDate + 2 years, endDate)` upper bound). -/
theorem update_regen_window (st : Store) (id : String)
    (updates : RecurringTransaction → RecurringTransaction)
    (eff now : JDate) (fresh : Nat → String) (st2 : Store)
    (hok : updateRecurringTransaction st id updates eff now fresh = .ok st2) :
    ∀ tx ∈ st2.transactions,
      tx ∈ removeFuturePendingTransactions st.transactions id eff ∨
      (monthIndex tx.date ≤ monthIndex (jsSetFullYear now (now.year + 2)) + 1 ∧
        tx.status = TxStatus.pending ∧ tx.recurring_transaction_id = some id) := by
  intro tx htx
  simp only [updateRecurringTransaction] at hok
  split at hok
  · exact absurd hok (by simp)
  · next rt heq =>
    simp only [Except.ok.injEq] at hok
    rw [← hok] at htx
    rcases List.mem_append.mp htx with h | h
    · exact Or.inl h
    · right
      have hprops := genFuel_mem_props (storeDB
        (removeFuturePendingTransactions st.transactions id eff)) rt
        (jsSetFullYear now (now.year + 2)) now fresh _ eff 0 tx h
      have hrid : rt.id = id := by
        have := List.find?_some heq
        simpa using this
      rw [hrid] at hprops
      exact hprops

/-- Fixture: an active template with id `"a"`, day 5, whose end date is
January 1, 2024. -/
def rtEnded : RecurringTransaction :=
  { id := "a", description := "rent", amount := 1200, type := .expense,
    category := "home", day_of_month := 5, user_id := "u",
    is_active := true, end_date := some ⟨2024, 0, 1, 0⟩,
    created_at := clk, updated_at := clk }

/-- C6 (counterexample): updating the template whose `endDate` is January 1,
2024 with effective date (and clock) June 15, 2025 regenerates instances
dated after that end date — `min(effectiveDate + 2 years, endDate)` would
forbid any instance after January 1, 2024, so the claim fails. -/
theorem update_regen_window_cx :
    rtEnded.end_date = some ⟨2024, 0, 1, 0⟩ ∧
    (updateRecurringTransaction (Store.mk [rtEnded] []) "a" (fun r => r)
        ⟨2025, 5, 15, 0⟩ ⟨2025, 5, 15, 0⟩ fr).toOption.any
      (fun s => s.transactions.any
        (fun tx => JDate.blt ⟨2024, 0, 1, 0⟩ tx.date)) = true := by
  constructor
  · rfl
  · rfl

/-- Fixture: the store before the C6 witness update. -/
def stUpd : Store := Store.mk [rtDel] [txCompFut]

/-- Fixture: the store after the C6 witness update (effective date past the
two-year horizon, so the regenerated batch is empty). -/
def stUpd2 : Store :=
  Store.mk [{ rtDel with updated_at := (⟨2025, 0, 1, 0⟩ : JDate) }] [txCompFut]

/-- C6 (witness): the amended theorem applied to an update whose effective
date lies beyond `now + 2 years` (empty regeneration), for the surviving
completed instance. -/
theorem update_regen_window_witness :
    updateRecurringTransaction stUpd "a" (fun r => r) ⟨2030, 0, 1, 0⟩
        ⟨2025, 0, 1, 0⟩ fr = .ok stUpd2 ∧
      (txCompFut ∈ removeFuturePendingTransactions stUpd.transactions "a"
          ⟨2030, 0, 1, 0⟩ ∨
        (monthIndex txCompFut.date ≤
            monthIndex (jsSetFullYear ⟨2025, 0, 1, 0⟩
              ((⟨2025, 0, 1, 0⟩ : JDate).year + 2)) + 1 ∧
          txCompFut.status = TxStatus.pending ∧
          txCompFut.recurring_transaction_id = some "a")) := by
  have hok : updateRecurringTransaction stUpd "a" (fun r => r) ⟨2030, 0, 1, 0⟩
      ⟨2025, 0, 1, 0⟩ fr = .ok stUpd2 := by rfl
  exact ⟨hok, update_regen_window stUpd "a" (fun r => r) ⟨2030, 0, 1, 0⟩
    ⟨2025, 0, 1, 0⟩ fr stUpd2 hok txCompFut (by decide)⟩

theorem startOfMonth_eq (y : Int) (m : Nat) (hm : m < 12) :
    mkDate y (m : Int) 1 = ⟨y, m, 1, 0⟩ := by
  have h28 := daysInMonth_ge y m
  have hid := normYM_id y m hm
  simp only [mkDate, hid]
  split_ifs with g1 g2
  · omega
  · rfl
  · omega

theorem endOfMonth_eq (y : Int) (m : Nat) (hm : m < 12) :
    mkDate y ((m : Int) + 1) 0 = ⟨y, m, daysInMonth y m, 0⟩ := by
  interval_cases m <;> simp [mkDate, normYM]

/-- The existence query against an in-memory store succeeds exactly when some
stored transaction matches the template and falls within the month window of
the cursor. -/
theorem check_storeDB_iff (S : List Transaction) (rid : String) (c : JDate) :
    checkExistingTransaction (storeDB S) rid c = true ↔
      ∃ t ∈ S, (t.recurring_transaction_id == some rid &&
        JDate.ble (mkDate c.year (c.month : Int) 1) t.date &&
        JDate.ble t.date (mkDate c.year ((c.month : Int) + 1) 0)) = true := by
  unfold checkExistingTransaction storeDB
  simp only [decide_eq_true_iff]
  rw [List.length_take]
  constructor
  · intro h
    have hlen : 0 < (List.filter (fun t =>
        t.recurring_transaction_id == some rid &&
        JDate.ble (mkDate c.year (c.month : Int) 1) t.date &&
        JDate.ble t.date (mkDate c.year ((c.month : Int) + 1) 0)) S).length := by
      rw [List.length_map] at h
      omega
    obtain ⟨t, ht⟩ := List.exists_mem_of_length_pos hlen
    exact ⟨t, (List.mem_filter.mp ht).1, (List.mem_filter.mp ht).2⟩
  · intro ⟨t, ht, hp⟩
    have hmem : t ∈ List.filter (fun t =>
        t.recurring_transaction_id == some rid &&
        JDate.ble (mkDate c.year (c.month : Int) 1) t.date &&
        JDate.ble t.date (mkDate c.year ((c.month : Int) + 1) 0)) S :=
      List.mem_filter.mpr ⟨ht, hp⟩
    have hlen := List.length_pos_of_mem hmem
    rw [List.length_map]
    omega

theorem check_mono (S T : List Transaction) (rid : String) (c : JDate)
    (h : checkExistingTransaction (storeDB S) rid c = true) :
    checkExistingTransaction (storeDB (S ++ T)) rid c = true := by
  rw [check_storeDB_iff] at h ⊢
  obtain ⟨t, ht, hp⟩ := h
  exact ⟨t, List.mem_append_left T ht, hp⟩

theorem le_fields (y : Int) (m : Nat) (d1 d2 t1 t2 : Nat)
    (h : d1 < d2 ∨ (d1 = d2 ∧ t1 ≤ t2)) :
    JDate.le ⟨y, m, d1, t1⟩ ⟨y, m, d2, t2⟩ := by
  unfold JDate.le monthIndex
  dsimp only
  omega

/-- When the template's day of month exists in the cursor's month, the
emitted instance lies inside that month's query window, so its presence in
the store makes the existence check succeed. -/
theorem check_of_mem (S : List Transaction) (rt : RecurringTransaction)
    (now : JDate) (i : String) (c : JDate) (hm : c.month < 12)
    (h1 : 1 ≤ rt.day_of_month) (h2 : rt.day_of_month ≤ daysInMonth c.year c.month)
    (hmem : genInstance rt c now i ∈ S) :
    checkExistingTransaction (storeDB S) rt.id c = true := by
  rw [check_storeDB_iff]
  refine ⟨genInstance rt c now i, hmem, ?_⟩
  have hd : (genInstance rt c now i).date = ⟨c.year, c.month, rt.day_of_month, 0⟩ := by
    rcases mkDate_eval c.year c.month rt.day_of_month hm h1 with ⟨_, h⟩ | ⟨hf, _, _⟩
    · exact h
    · omega
  rw [Bool.and_eq_true, Bool.and_eq_true]
  refine ⟨⟨by simp [genInstance], ?_⟩, ?_⟩
  · rw [startOfMonth_eq c.year c.month hm, hd, JDate.ble_iff]
    exact le_fields _ _ _ _ _ _ (by omega)
  · rw [endOfMonth_eq c.year c.month hm, hd, JDate.ble_iff]
    exact le_fields _ _ _ _ _ _ (by omega)

/-- Every cursor position the loop guard admits is either already covered in
the store (check succeeds) or receives an emitted instance in the output. -/
theorem genFuel_covers (S : List Transaction) (rt : RecurringTransaction)
    (e now : JDate) (fresh : Nat → String) :
    ∀ (j fuel : Nat) (c : JDate) (k : Nat), boundFor e c ≤ fuel →
      JDate.le (stepK c j) e →
      checkExistingTransaction (storeDB S) rt.id (stepK c j) = true ∨
      ∃ i : Nat, genInstance rt (stepK c j) now (fresh i) ∈
        genFuel (storeDB S) rt e now fresh fuel c k := by
  intro j
  induction j with
  | zero =>
    intro fuel c k hf hle
    obtain ⟨f2, rfl⟩ : ∃ f2, fuel = f2 + 1 :=
      ⟨fuel - 1, by have := boundFor_pos e c; omega⟩
    by_cases hc : checkExistingTransaction (storeDB S) rt.id c = true
    · exact Or.inl hc
    · right
      refine ⟨k, ?_⟩
      have hble : JDate.ble c e = true := (JDate.ble_iff c e).mpr hle
      have hcf : checkExistingTransaction (storeDB S) rt.id c = false := by
        cases hx : checkExistingTransaction (storeDB S) rt.id c
        · rfl
        · exact absurd hx hc
      show genInstance rt c now (fresh k) ∈ _
      simp only [genFuel, hble, if_true, hcf, Bool.false_eq_true, if_false]
      exact List.mem_cons_self _ _
  | succ j ih =>
    intro fuel c k hf hle
    obtain ⟨f2, rfl⟩ : ∃ f2, fuel = f2 + 1 :=
      ⟨fuel - 1, by have := boundFor_pos e c; omega⟩
    have hcle : JDate.le c e :=
      le_trans_jdate _ _ _ (le_stepK c (j + 1)) hle
    have hble : JDate.ble c e = true := (JDate.ble_iff c e).mpr hcle
    have hf2 : boundFor e (stepMonth c) ≤ f2 := by
      have := boundFor_step e c hcle
      omega
    have hle2 : JDate.le (stepK (stepMonth c) j) e := hle
    by_cases hc : checkExistingTransaction (storeDB S) rt.id c = true
    · rcases ih f2 (stepMonth c) k hf2 hle2 with h | ⟨i, hi⟩
      · exact Or.inl h
      · right
        refine ⟨i, ?_⟩
        simp only [genFuel, hble, if_true, hc]
        exact hi
    · have hcf : checkExistingTransaction (storeDB S) rt.id c = false := by
        cases hx : checkExistingTransaction (storeDB S) rt.id c
        · rfl
        · exact absurd hx hc
      rcases ih f2 (stepMonth c) (k + 1) hf2 hle2 with h | ⟨i, hi⟩
      · exact Or.inl h
      · right
        refine ⟨i, ?_⟩
        simp only [genFuel, hble, if_true, hcf, Bool.false_eq_true, if_false]
        exact List.mem_cons_of_mem _ hi

/-- When every guard-admitted cursor month is already covered, the loop
emits nothing. -/
theorem genFuel_all_skipped (db : QueryDB) (rt : RecurringTransaction)
    (e now : JDate) (fresh : Nat → String) :
    ∀ (fuel : Nat) (c : JDate) (k : Nat), boundFor e c ≤ fuel →
      (∀ j : Nat, JDate.le (stepK c j) e →
        checkExistingTransaction db rt.id (stepK c j) = true) →
      genFuel db rt e now fresh fuel c k = [] := by
  intro fuel
  induction fuel with
  | zero =>
    intro c k hf _
    have := boundFor_pos e c
    omega
  | succ fuel ih =>
    intro c k hf hall
    by_cases hle : JDate.le c e
    · have hble : JDate.ble c e = true := (JDate.ble_iff c e).mpr hle
      have hc : checkExistingTransaction db rt.id c = true := hall 0 hle
      have hf2 : boundFor e (stepMonth c) ≤ fuel := by
        have := boundFor_step e c hle
        omega
      simp only [genFuel, hble, if_true, hc]
      exact ih (stepMonth c) k hf2 (fun j hj => hall (j + 1) hj)
    · have hble : JDate.ble c e = false := (JDate.ble_eq_false c e).mpr hle
      simp [genFuel, hble]

/-- An upper bound on the step count of any guard-admitted cursor. -/
def spanBound (s e : JDate) : Nat := (monthIndex e + 1 - monthIndex s).toNat + 1

/-- C3 (amended): generation is idempotent against the store **provided the
template's day of month exists in every visited cursor month** (so that each
emitted instance actually falls inside the month the existence check later
queries): if the store is extended by the output of a first call, a second
call with the same template and window emits nothing.  (As the
counterexample shows, when the day of month overflows a visited month —
e.g. day 31 in February — the first call's instance is dated in the next
month, the existence check misses it, and the second call emits a
duplicate.) -/
theorem generate_idempotent (S : List Transaction) (rt : RecurringTransaction)
    (s e now now2 : JDate) (fresh fresh2 : Nat → String)
    (hm : s.month < 12) (h1 : 1 ≤ rt.day_of_month)
    (hfit : ∀ j : Nat, j ≤ spanBound s e → JDate.le (stepK s j) e →
      rt.day_of_month ≤ daysInMonth (stepK s j).year (stepK s j).month) :
    generateRecurringTransactions
        (storeDB (S ++ generateRecurringTransactions (storeDB S) rt s e now fresh))
        rt s e now2 fresh2 = [] := by
  apply genFuel_all_skipped _ rt e now2 fresh2 (boundFor e s) s 0 (le_refl _)
  intro j hj
  have hjb : j ≤ spanBound s e := by
    have hw := stepK_index_lower_weak s j
    have hle := monthIndex_le_of_le _ _ hj
    unfold spanBound
    omega
  have hfitj := hfit j hjb hj
  have hmj : (stepK s j).month < 12 := stepK_month_lt s j hm
  rcases genFuel_covers S rt e now fresh j (boundFor e s) s 0 (le_refl _) hj with h | ⟨i, hi⟩
  · exact check_mono S _ rt.id (stepK s j) h
  · exact check_of_mem _ rt now (fresh i) (stepK s j) hmj h1 hfitj
      (List.mem_append_right S hi)

/-- C3 (counterexample): the day-31 template over the single-month February
2023 window: the first call emits an instance dated March 3, the existence
check for the February cursor misses it, and the second call — against a
store holding exactly the first call's output — emits again instead of
returning the empty sequence. -/
theorem generate_idempotent_cx :
    generateRecurringTransactions
        (storeDB (generateRecurringTransactions (storeDB []) rt31
          ⟨2023, 1, 1, 0⟩ ⟨2023, 1, 20, 0⟩ clk fr))
        rt31 ⟨2023, 1, 1, 0⟩ ⟨2023, 1, 20, 0⟩ clk fr ≠ [] := by
  decide

/-- C3 (witness): the amended theorem applied to the day-15 template over
January–March 2024, where day 15 exists in every visited month. -/
theorem generate_idempotent_witness :
    (⟨2024, 0, 15, 0⟩ : JDate).month < 12 ∧ 1 ≤ rt15.day_of_month ∧
    (∀ j : Nat, j ≤ spanBound ⟨2024, 0, 15, 0⟩ ⟨2024, 2, 20, 0⟩ →
      JDate.le (stepK ⟨2024, 0, 15, 0⟩ j) ⟨2024, 2, 20, 0⟩ →
      rt15.day_of_month ≤ daysInMonth (stepK ⟨2024, 0, 15, 0⟩ j).year
        (stepK ⟨2024, 0, 15, 0⟩ j).month) ∧
    generateRecurringTransactions
        (storeDB ([] ++ generateRecurringTransactions (storeDB []) rt15
          ⟨2024, 0, 15, 0⟩ ⟨2024, 2, 20, 0⟩ clk fr))
        rt15 ⟨2024, 0, 15, 0⟩ ⟨2024, 2, 20, 0⟩ clk fr = [] :=
  ⟨by decide, by decide, by decide,
    generate_idempotent [] rt15 ⟨2024, 0, 15, 0⟩ ⟨2024, 2, 20, 0⟩ clk clk fr fr
      (by decide) (by decide) (by decide)⟩

/-- The duplicate-repair grouping key `` `${getFullYear()}-${getMonth()}` ``
of a transaction date, as a (year, month) pair. -/
def monthKey (d : JDate) : Int × Nat := (d.year, d.month)

/-- The ordering used by the repair pass's fetch (`.order('date')`). -/
def byDate (a b : Transaction) : Prop := JDate.le a.date b.date

instance byDate_dec : DecidableRel byDate :=
  fun a b => JDate.decLe a.date b.date

/-- The repair pass's date-ordered fetch of a template's instances, modelled
as a stable sort. -/
def sortedByDate (l : List Transaction) : List Transaction :=
  List.insertionSort byDate l

/-- The ids gathered by the repair pass for deletion: walking the
date-ordered instances, every instance whose (year, month) key was already
seen — i.e. everything except the first instance of each month group
(`transactionIds.slice(1)` per group). -/
def dupIds : List Transaction → List (Int × Nat) → List String
  | [], _ => []
  | t :: rest, seen =>
    if monthKey t.date ∈ seen then t.id :: dupIds rest seen
    else dupIds rest (monthKey t.date :: seen)

/-- The complement of `dupIds`: the designated survivors, the first instance
of each month group in date order. -/
def keepFirst : List Transaction → List (Int × Nat) → List Transaction
  | [], _ => []
  | t :: rest, seen =>
    if monthKey t.date ∈ seen then keepFirst rest seen
    else t :: keepFirst rest (monthKey t.date :: seen)

/-- One template's round of `validateRecurringTransactions`: fetch the
template's instances ordered by date, group by month, and delete every id in
a group except the first (`.delete().in('id', toRemove)`). -/
def validateStep (txs : List Transaction) (r : RecurringTransaction) :
    List Transaction :=
  let sorted := sortedByDate (txs.filter (fun t =>
    t.recurring_transaction_id == some r.id))
  let toRemove := dupIds sorted []
  txs.filter (fun t => !(toRemove.contains t.id))

/-- `validateRecurringTransactions()`: run the duplicate repair round for
every active template, in order, against the evolving transactions table. -/
def validateRecurringTransactions (st : Store) : Store :=
  { st with transactions := (st.recurring.filter (fun r =>
      r.is_active)).foldl validateStep st.transactions }

theorem contains_str_iff (l : List String) (a : String) :
    l.contains a = true ↔ a ∈ l := by
  simp [List.contains]

theorem dupIds_partition (l : List Transaction) :
    ∀ (seen : List (Int × Nat)) (t : Transaction), t ∈ l →
      t.id ∈ dupIds l seen ∨ t ∈ keepFirst l seen := by
  induction l with
  | nil => intro seen t ht; simp at ht
  | cons h rest ih =>
    intro seen t ht
    unfold dupIds keepFirst
    split_ifs with hk
    · rcases List.mem_cons.mp ht with rfl | ht2
      · exact Or.inl (List.mem_cons_self _ _)
      · rcases ih seen t ht2 with h1 | h1
        · exact Or.inl (List.mem_cons_of_mem _ h1)
        · exact Or.inr h1
    · rcases List.mem_cons.mp ht with rfl | ht2
      · exact Or.inr (List.mem_cons_self _ _)
      · rcases ih (monthKey h.date :: seen) t ht2 with h1 | h1
        · exact Or.inl h1
        · exact Or.inr (List.mem_cons_of_mem _ h1)

theorem keepFirst_subset (l : List Transaction) :
    ∀ (seen : List (Int × Nat)) (t : Transaction),
      t ∈ keepFirst l seen → t ∈ l := by
  induction l with
  | nil => intro seen t ht; simp [keepFirst] at ht
  | cons h rest ih =>
    intro seen t ht
    unfold keepFirst at ht
    split_ifs at ht with hk
    · exact List.mem_cons_of_mem _ (ih seen t ht)
    · rcases List.mem_cons.mp ht with rfl | ht2
      · exact List.mem_cons_self _ _
      · exact List.mem_cons_of_mem _ (ih _ t ht2)

theorem dupIds_subset (l : List Transaction) :
    ∀ (seen : List (Int × Nat)) (x : String), x ∈ dupIds l seen →
      ∃ t ∈ l, x = t.id := by
  induction l with
  | nil => intro seen x hx; simp [dupIds] at hx
  | cons h rest ih =>
    intro seen x hx
    unfold dupIds at hx
    split_ifs at hx with hk
    · rcases List.mem_cons.mp hx with rfl | hx2
      · exact ⟨h, List.mem_cons_self _ _, rfl⟩
      · obtain ⟨t, ht, rfl⟩ := ih seen x hx2
        exact ⟨t, List.mem_cons_of_mem _ ht, rfl⟩
    · obtain ⟨t, ht, rfl⟩ := ih _ x hx
      exact ⟨t, List.mem_cons_of_mem _ ht, rfl⟩

theorem keepFirst_keys (l : List Transaction) :
    ∀ seen : List (Int × Nat),
      (∀ t ∈ keepFirst l seen, monthKey t.date ∉ seen) ∧
      List.Pairwise (fun a b : Transaction => monthKey a.date ≠ monthKey b.date)
        (keepFirst l seen) := by
  induction l with
  | nil => intro seen; constructor <;> simp [keepFirst]
  | cons h rest ih =>
    intro seen
    unfold keepFirst
    split_ifs with hk
    · exact ih seen
    · obtain ⟨ih1, ih2⟩ := ih (monthKey h.date :: seen)
      constructor
      · intro t ht
        rcases List.mem_cons.mp ht with rfl | ht2
        · exact hk
        · intro hts
          exact ih1 t ht2 (List.mem_cons_of_mem _ hts)
      · refine List.Pairwise.cons ?_ ih2
        intro t ht2 he
        exact ih1 t ht2 (he ▸ List.mem_cons_self _ _)

theorem keepFirst_not_dup (l : List Transaction) :
    ∀ seen : List (Int × Nat), (l.map (fun t => t.id)).Nodup →
      ∀ t ∈ keepFirst l seen, t.id ∉ dupIds l seen := by
  induction l with
  | nil => intro seen _ t ht; simp [keepFirst] at ht
  | cons h rest ih =>
    intro seen hnd t ht
    rw [List.map_cons, List.nodup_cons] at hnd
    obtain ⟨hh, hnd2⟩ := hnd
    unfold keepFirst at ht
    unfold dupIds
    split_ifs at ht ⊢ with hk
    · intro hmem
      rcases List.mem_cons.mp hmem with he | hmem2
      · have : t ∈ rest := keepFirst_subset rest seen t ht
        exact hh (he ▸ List.mem_map_of_mem (fun t => t.id) this)
      · exact ih seen hnd2 t ht hmem2
    · rcases List.mem_cons.mp ht with rfl | ht2
      · intro hmem
        obtain ⟨u, hu, he⟩ := dupIds_subset rest _ t.id hmem
        exact hh (he ▸ List.mem_map_of_mem (fun t => t.id) hu)
      · exact ih _ hnd2 t ht2

/-- The deletion set one repair round computes for template id `q`. -/
def dupOf (q : String) (txs : List Transaction) : List String :=
  dupIds (sortedByDate (txs.filter (fun t =>
    t.recurring_transaction_id == some q))) []

/-- The survivor set one repair round designates for template id `q`: the
first instance, in ascending date order, of each calendar-month group. -/
def keepOf (q : String) (txs : List Transaction) : List Transaction :=
  keepFirst (sortedByDate (txs.filter (fun t =>
    t.recurring_transaction_id == some q))) []

theorem validateStep_eq (txs : List Transaction) (r : RecurringTransaction) :
    validateStep txs r =
      txs.filter (fun t => !((dupOf r.id txs).contains t.id)) := rfl

/-- The per-template duplicate groups of `txs` are already singletons. -/
def keysDistinct (q : String) (txs : List Transaction) : Prop :=
  List.Pairwise (fun a b : Transaction => monthKey a.date ≠ monthKey b.date)
    (txs.filter (fun t => t.recurring_transaction_id == some q))

theorem keyNe_symm :
    Symmetric (fun a b : Transaction => monthKey a.date ≠ monthKey b.date) :=
  fun _ _ h he => h he.symm

theorem keysDistinct_sublist (q : String) (txs1 txs2 : List Transaction)
    (hs : txs1.Sublist txs2) (h : keysDistinct q txs2) : keysDistinct q txs1 :=
  h.sublist (hs.filter _)

theorem validateStep_sublist (txs : List Transaction)
    (r : RecurringTransaction) : (validateStep txs r).Sublist txs := by
  rw [validateStep_eq]
  exact List.filter_sublist _

theorem validateStep_nodup (txs : List Transaction) (r : RecurringTransaction)
    (hnd : (txs.map (fun t => t.id)).Nodup) :
    ((validateStep txs r).map (fun t => t.id)).Nodup :=
  hnd.sublist ((validateStep_sublist txs r).map _)

theorem fold_sublist (rs : List RecurringTransaction) :
    ∀ txs : List Transaction,
      (List.foldl validateStep txs rs).Sublist txs := by
  induction rs with
  | nil => intro txs; exact List.Sublist.refl txs
  | cons r0 rest ih =>
    intro txs
    rw [List.foldl_cons]
    exact (ih (validateStep txs r0)).trans (validateStep_sublist txs r0)

theorem mem_and_match_iff (l : List Transaction) (q : String) (t : Transaction) :
    (t ∈ l ∧ t.recurring_transaction_id = some q) ↔
      t ∈ l.filter (fun u => u.recurring_transaction_id == some q) := by
  rw [List.mem_filter]
  exact and_congr_right fun _ => beq_iff_eq.symm

/-- Survivor characterization of one repair round: among the instances of
template `r`, exactly the first instance of each (year, month) group in
ascending date order survives the round. -/
theorem validateStep_matching (txs : List Transaction)
    (r : RecurringTransaction) (hnd : (txs.map (fun t => t.id)).Nodup) :
    ∀ t : Transaction,
      (t ∈ validateStep txs r ∧ t.recurring_transaction_id = some r.id) ↔
        t ∈ keepOf r.id txs := by
  intro t
  have hperm := List.perm_insertionSort byDate (txs.filter (fun u =>
    u.recurring_transaction_id == some r.id))
  have hFnd : ((txs.filter (fun u =>
      u.recurring_transaction_id == some r.id)).map (fun t => t.id)).Nodup :=
    hnd.sublist ((List.filter_sublist _).map _)
  have hSnd : ((sortedByDate (txs.filter (fun u =>
      u.recurring_transaction_id == some r.id))).map (fun t => t.id)).Nodup :=
    ((hperm.map _).nodup_iff).mpr hFnd
  constructor
  · rintro ⟨hmem, hmatch⟩
    rw [validateStep_eq] at hmem
    obtain ⟨htxs, hp⟩ := List.mem_filter.mp hmem
    have hid : t.id ∉ dupOf r.id txs := by
      intro hin
      rw [(contains_str_iff _ _).mpr hin] at hp
      exact absurd hp (by decide)
    have htF : t ∈ txs.filter (fun u =>
        u.recurring_transaction_id == some r.id) :=
      List.mem_filter.mpr ⟨htxs, beq_iff_eq.mpr hmatch⟩
    have htS : t ∈ sortedByDate (txs.filter (fun u =>
        u.recurring_transaction_id == some r.id)) := hperm.mem_iff.mpr htF
    rcases dupIds_partition _ [] t htS with h | h
    · exact absurd h hid
    · exact h
  · intro hk
    have htS : t ∈ sortedByDate (txs.filter (fun u =>
        u.recurring_transaction_id == some r.id)) :=
      keepFirst_subset _ [] t hk
    obtain ⟨htxs, hbeq⟩ := List.mem_filter.mp (hperm.mem_iff.mp htS)
    have hid : t.id ∉ dupOf r.id txs := keepFirst_not_dup _ [] hSnd t hk
    refine ⟨?_, beq_iff_eq.mp hbeq⟩
    rw [validateStep_eq]
    refine List.mem_filter.mpr ⟨htxs, ?_⟩
    cases hc : (dupOf r.id txs).contains t.id
    · rfl
    · exact absurd ((contains_str_iff _ _).mp hc) hid

/-- After its round, a template's surviving instances have pairwise distinct
month keys. -/
theorem validateStep_establishes (txs : List Transaction)
    (r : RecurringTransaction) (hnd : (txs.map (fun t => t.id)).Nodup) :
    keysDistinct r.id (validateStep txs r) := by
  unfold keysDistinct
  have hvnd : (validateStep txs r).Nodup :=
    (List.Nodup.of_map _ hnd).sublist (validateStep_sublist txs r)
  have hlnd : ((validateStep txs r).filter (fun t =>
      t.recurring_transaction_id == some r.id)).Nodup :=
    hvnd.sublist (List.filter_sublist _)
  apply hlnd.pairwise_of_forall_ne
  intro a ha b hb hab
  obtain ⟨ha1, ha2⟩ := List.mem_filter.mp ha
  obtain ⟨hb1, hb2⟩ := List.mem_filter.mp hb
  have hka : a ∈ keepOf r.id txs :=
    (validateStep_matching txs r hnd a).mp ⟨ha1, beq_iff_eq.mp ha2⟩
  have hkb : b ∈ keepOf r.id txs :=
    (validateStep_matching txs r hnd b).mp ⟨hb1, beq_iff_eq.mp hb2⟩
  exact List.Pairwise.forall keyNe_symm (keepFirst_keys _ []).2 hka hkb hab

theorem dupIds_nil_of_distinct (l : List Transaction) :
    ∀ seen : List (Int × Nat),
      List.Pairwise (fun a b : Transaction =>
        monthKey a.date ≠ monthKey b.date) l →
      (∀ t ∈ l, monthKey t.date ∉ seen) → dupIds l seen = [] := by
  induction l with
  | nil => intro seen _ _; rfl
  | cons h rest ih =>
    intro seen hp hs
    rw [List.pairwise_cons] at hp
    unfold dupIds
    rw [if_neg (hs h (List.mem_cons_self _ _))]
    apply ih (monthKey h.date :: seen) hp.2
    intro t ht hmem
    rcases List.mem_cons.mp hmem with he | hmem2
    · exact hp.1 t ht he.symm
    · exact hs t (List.mem_cons_of_mem _ ht) hmem2

/-- A repair round is the identity on a store whose per-template month
groups are already singletons. -/
theorem validateStep_identity (txs : List Transaction)
    (r : RecurringTransaction) (h : keysDistinct r.id txs) :
    validateStep txs r = txs := by
  have hperm := List.perm_insertionSort byDate (txs.filter (fun u =>
    u.recurring_transaction_id == some r.id))
  have hps : List.Pairwise (fun a b : Transaction =>
      monthKey a.date ≠ monthKey b.date) (sortedByDate (txs.filter (fun u =>
        u.recurring_transaction_id == some r.id))) :=
    (hperm.pairwise_iff (fun h2 => keyNe_symm h2)).mpr h
  have hdup : dupOf r.id txs = [] :=
    dupIds_nil_of_distinct _ [] hps (fun _ _ h2 => absurd h2 (List.not_mem_nil _))
  rw [validateStep_eq, hdup]
  exact List.filter_eq_self.mpr (fun a _ => rfl)

/-- A repair round for one template does not touch the instances of another
template id (given globally unique instance ids). -/
theorem validateStep_other (txs : List Transaction) (r : RecurringTransaction)
    (q : String) (hnd : (txs.map (fun t => t.id)).Nodup) (hne : r.id ≠ q) :
    (validateStep txs r).filter (fun u =>
      u.recurring_transaction_id == some q) =
    txs.filter (fun u => u.recurring_transaction_id == some q) := by
  rw [validateStep_eq, List.filter_filter]
  apply List.filter_congr
  intro t ht
  cases hm : (t.recurring_transaction_id == some q)
  · rw [Bool.false_and]
  · rw [Bool.true_and]
    cases hc : (dupOf r.id txs).contains t.id
    · rfl
    · exfalso
      obtain ⟨x, hx, hxid⟩ := dupIds_subset _ _ t.id ((contains_str_iff _ _).mp hc)
      have hxS := (List.perm_insertionSort byDate (txs.filter (fun u =>
        u.recurring_transaction_id == some r.id))).mem_iff.mp hx
      obtain ⟨hxt, hxm⟩ := List.mem_filter.mp hxS
      have hx_eq : x = t := List.inj_on_of_nodup_map hnd hxt ht hxid.symm
      rw [hx_eq] at hxm
      rw [beq_iff_eq.mp hxm] at hm
      have h3 : some r.id = some q := beq_iff_eq.mp hm
      exact hne (by injection h3)

theorem fold_nodup (rs : List RecurringTransaction) :
    ∀ txs : List Transaction, (txs.map (fun t => t.id)).Nodup →
      ((List.foldl validateStep txs rs).map (fun t => t.id)).Nodup :=
  fun txs hnd => hnd.sublist ((fold_sublist rs txs).map _)

/-- After the full repair pass, every processed template's month groups are
singletons. -/
theorem fold_establishes (rs : List RecurringTransaction) :
    ∀ txs : List Transaction, (txs.map (fun t => t.id)).Nodup →
      ∀ r ∈ rs, keysDistinct r.id (List.foldl validateStep txs rs) := by
  induction rs with
  | nil => intro txs _ r hr; simp at hr
  | cons r0 rest ih =>
    intro txs hnd r hr
    rw [List.foldl_cons]
    rcases List.mem_cons.mp hr with rfl | hr2
    · exact keysDistinct_sublist _ _ _
        (fold_sublist rest (validateStep txs r))
        (validateStep_establishes txs r hnd)
    · exact ih (validateStep txs r0) (validateStep_nodup txs r0 hnd) r hr2

/-- A repair pass over a store whose processed month groups are already
singletons is the identity. -/
theorem fold_identity (rs : List RecurringTransaction) :
    ∀ txs : List Transaction, (∀ r ∈ rs, keysDistinct r.id txs) →
      List.foldl validateStep txs rs = txs := by
  induction rs with
  | nil => intro txs _; rfl
  | cons r0 rest ih =>
    intro txs h
    rw [List.foldl_cons, validateStep_identity txs r0 (h r0 (List.mem_cons_self _ _))]
    exact ih txs (fun r hr => h r (List.mem_cons_of_mem _ hr))

/-- Later repair rounds neither delete nor revive a template's designated
survivors. -/
theorem fold_keeps (rs : List RecurringTransaction) :
    ∀ (txs : List Transaction) (q : String) (K : List Transaction),
      (txs.map (fun t => t.id)).Nodup → keysDistinct q txs →
      (∀ t : Transaction, (t ∈ txs ∧ t.recurring_transaction_id = some q) ↔ t ∈ K) →
      ∀ t : Transaction,
        (t ∈ List.foldl validateStep txs rs ∧
          t.recurring_transaction_id = some q) ↔ t ∈ K := by
  induction rs with
  | nil => intro txs q K _ _ h t; exact h t
  | cons r0 rest ih =>
    intro txs q K hnd hkd hiff t
    rw [List.foldl_cons]
    by_cases he : r0.id = q
    · rw [validateStep_identity txs r0 (by rw [he]; exact hkd)]
      exact ih txs q K hnd hkd hiff t
    · have hfe := validateStep_other txs r0 q hnd he
      apply ih (validateStep txs r0) q K (validateStep_nodup txs r0 hnd)
      · unfold keysDistinct
        rw [hfe]
        exact hkd
      · intro u
        rw [mem_and_match_iff _ q u, hfe, ← mem_and_match_iff _ q u]
        exact hiff u

/-- Survivor characterization of the full repair pass for any processed
template id. -/
theorem fold_matching (rs : List RecurringTransaction) :
    ∀ (txs : List Transaction) (q : String),
      (txs.map (fun t => t.id)).Nodup → (∃ r0 ∈ rs, r0.id = q) →
      ∀ t : Transaction,
        (t ∈ List.foldl validateStep txs rs ∧
          t.recurring_transaction_id = some q) ↔ t ∈ keepOf q txs := by
  induction rs with
  | nil => rintro txs q _ ⟨r0, hr0, _⟩ t; simp at hr0
  | cons r0 rest ih =>
    intro txs q hnd hex t
    rw [List.foldl_cons]
    by_cases he : r0.id = q
    · apply fold_keeps rest (validateStep txs r0) q (keepOf q txs)
        (validateStep_nodup txs r0 hnd)
      · rw [← he]
        exact validateStep_establishes txs r0 hnd
      · intro u
        rw [← he]
        exact validateStep_matching txs r0 hnd u
    · obtain ⟨r1, hr1, hq⟩ := hex
      have hr1r : r1 ∈ rest := by
        rcases List.mem_cons.mp hr1 with rfl | h2
        · exact absurd hq he
        · exact h2
      have hfe := validateStep_other txs r0 q hnd he
      have hkeq : keepOf q (validateStep txs r0) = keepOf q txs := by
        unfold keepOf
        rw [hfe]
      rw [ih (validateStep txs r0) q (validateStep_nodup txs r0 hnd)
        ⟨r1, hr1r, hq⟩ t, hkeq]

/-- C7 (amended): assuming globally unique instance ids (the storage
schema's primary key), one repair pass leaves, for each **active** template
and each (template, calendar-month) group, exactly the first instance in
ascending date order — without inspecting `status` — and a second pass is a
no-op on the whole store.  (As the counterexample shows, the pass only
processes `is_active = true` templates, so a duplicated group of an inactive
template survives untouched, refuting the claim's "for every template"
reading.) -/
theorem validate_convergent (st : Store)
    (hnd : (st.transactions.map (fun t => t.id)).Nodup) :
    validateRecurringTransactions (validateRecurringTransactions st) =
      validateRecurringTransactions st ∧
    (∀ r ∈ st.recurring, r.is_active = true → ∀ t : Transaction,
      ((t ∈ (validateRecurringTransactions st).transactions ∧
        t.recurring_transaction_id = some r.id) ↔
        t ∈ keepOf r.id st.transactions)) := by
  constructor
  · have hW1 := fold_establishes (st.recurring.filter (fun r => r.is_active))
      st.transactions hnd
    have hW2 := fold_identity (st.recurring.filter (fun r => r.is_active))
      (List.foldl validateStep st.transactions
        (st.recurring.filter (fun r => r.is_active))) hW1
    show validateRecurringTransactions { st with
      transactions := List.foldl validateStep st.transactions
        (st.recurring.filter (fun r => r.is_active)) } = _
    unfold validateRecurringTransactions
    dsimp only
    rw [hW2]
  · intro r hr hact t
    have hex : ∃ r0 ∈ st.recurring.filter (fun r => r.is_active), r0.id = r.id :=
      ⟨r, List.mem_filter.mpr ⟨hr, hact⟩, rfl⟩
    exact fold_matching (st.recurring.filter (fun r => r.is_active))
      st.transactions r.id hnd hex t

/-- Fixture: an inactive template with id `"b"`. -/
def rtInact : RecurringTransaction :=
  { id := "b", description := "old", amount := 9, type := .expense,
    category := "misc", day_of_month := 5, user_id := "u",
    is_active := false, end_date := none,
    created_at := clk, updated_at := clk }

/-- Fixture: first January 2024 duplicate of the inactive template. -/
def txD1 : Transaction :=
  { id := "d1", description := "old", amount := 9, type := .expense,
    category := "misc", date := ⟨2024, 0, 5, 0⟩, status := .pending,
    recurring_transaction_id := some "b", user_id := "u",
    created_at := clk, updated_at := clk }

/-- Fixture: second January 2024 duplicate of the inactive template. -/
def txD2 : Transaction :=
  { id := "d2", description := "old", amount := 9, type := .expense,
    category := "misc", date := ⟨2024, 0, 9, 0⟩, status := .pending,
    recurring_transaction_id := some "b", user_id := "u",
    created_at := clk, updated_at := clk }

/-- C7 (counterexample): a (template, month) group with two instances whose
template is inactive is left entirely untouched by the repair pass — both
duplicates survive, refuting "one pass leaves, for each (template,
calendar-month) group, exactly the first instance and deletes the rest" as
a statement over every store state. -/
theorem validate_convergent_cx :
    validateRecurringTransactions (Store.mk [rtInact] [txD1, txD2]) =
      Store.mk [rtInact] [txD1, txD2] ∧
    monthKey txD1.date = monthKey txD2.date ∧ txD1 ≠ txD2 ∧
    txD1 ∈ (validateRecurringTransactions
      (Store.mk [rtInact] [txD1, txD2])).transactions ∧
    txD2 ∈ (validateRecurringTransactions
      (Store.mk [rtInact] [txD1, txD2])).transactions := by
  exact ⟨rfl, rfl, by decide, by decide, by decide⟩

/-- Fixture: an active template with id `"v"`. -/
def rtVal : RecurringTransaction :=
  { id := "v", description := "sub", amount := 10, type := .expense,
    category := "media", day_of_month := 3, user_id := "u",
    is_active := true, end_date := none,
    created_at := clk, updated_at := clk }

/-- Fixture: January 2024 duplicate, day 20. -/
def v1 : Transaction :=
  { id := "v1", description := "sub", amount := 10, type := .expense,
    category := "media", date := ⟨2024, 0, 20, 0⟩, status := .pending,
    recurring_transaction_id := some "v", user_id := "u",
    created_at := clk, updated_at := clk }

/-- Fixture: January 2024 duplicate, day 3 — the earliest, the designated
survivor. -/
def v2 : Transaction :=
  { id := "v2", description := "sub", amount := 10, type := .expense,
    category := "media", date := ⟨2024, 0, 3, 0⟩, status := .pending,
    recurring_transaction_id := some "v", user_id := "u",
    created_at := clk, updated_at := clk }

/-- Fixture: January 2024 duplicate, day 11, already completed — removed by
the pass regardless of its status. -/
def v3 : Transaction :=
  { id := "v3", description := "sub", amount := 10, type := .expense,
    category := "media", date := ⟨2024, 0, 11, 0⟩, status := .completed,
    recurring_transaction_id := some "v", user_id := "u",
    created_at := clk, updated_at := clk }

/-- Fixture: January 2024 duplicate, day 25. -/
def v4 : Transaction :=
  { id := "v4", description := "sub", amount := 10, type := .expense,
    category := "media", date := ⟨2024, 0, 25, 0⟩, status := .pending,
    recurring_transaction_id := some "v", user_id := "u",
    created_at := clk, updated_at := clk }

/-- Fixture: January 2024 duplicate, day 28. -/
def v5 : Transaction :=
  { id := "v5", description := "sub", amount := 10, type := .expense,
    category := "media", date := ⟨2024, 0, 28, 0⟩, status := .pending,
    recurring_transaction_id := some "v", user_id := "u",
    created_at := clk, updated_at := clk }

/-- C7 (witness): the amended theorem applied to five same-month instances of
an active template: the pass is idempotent, the earliest-dated instance is
characterized as the survivor, and the completed duplicate is not. -/
theorem validate_convergent_witness :
    ((Store.mk [rtVal] [v1, v2, v3, v4, v5]).transactions.map
      (fun t => t.id)).Nodup ∧
    validateRecurringTransactions (validateRecurringTransactions
      (Store.mk [rtVal] [v1, v2, v3, v4, v5])) =
      validateRecurringTransactions (Store.mk [rtVal] [v1, v2, v3, v4, v5]) ∧
    ((v2 ∈ (validateRecurringTransactions
        (Store.mk [rtVal] [v1, v2, v3, v4, v5])).transactions ∧
      v2.recurring_transaction_id = some rtVal.id) ↔
      v2 ∈ keepOf rtVal.id (Store.mk [rtVal] [v1, v2, v3, v4, v5]).transactions) ∧
    ((v3 ∈ (validateRecurringTransactions
        (Store.mk [rtVal] [v1, v2, v3, v4, v5])).transactions ∧
      v3.recurring_transaction_id = some rtVal.id) ↔
      v3 ∈ keepOf rtVal.id (Store.mk [rtVal] [v1, v2, v3, v4, v5]).transactions) :=
  have h := validate_convergent (Store.mk [rtVal] [v1, v2, v3, v4, v5]) (by decide)
  ⟨by decide, h.1, h.2 rtVal (by decide) rfl v2, h.2 rtVal (by decide) rfl v3⟩
